import Mathlib

/-!
Verification development for the tech-docs-assistant repository.

The backend (TypeScript) is shallowly embedded below:
- JavaScript strings are modelled as `JStr := List Char`; the JS string
  operations used by the code (`split`, `trim`, `substring`, `includes`,
  `toLowerCase`, `join`) are modelled by executable Lean functions with the
  same leftmost / non-overlapping semantics.
- JavaScript numbers used for scores are modelled exactly as rationals `ℚ`.
- A JavaScript `Map` (insertion-ordered, keyed by result id) is modelled as an
  association list in which an update keeps the entry position and an insert
  appends at the end.
- `async` functions that can throw are modelled as total functions over an
  explicit outcome (`Except`) for each external call, so a `catch` block
  becomes a `match` on that outcome.

Sources embedded:
- `apps/backend/src/services/fileProcessor.ts` (`FileProcessor.chunkText`)
- `apps/backend/src/services/fileProcessor.ts` / `embeddings.ts`
  (`EmbeddingService.initialize`, `generateEmbedding`, `cosineSimilarity`)
- `apps/backend/src/services/opensearch.ts` (`searchDocuments` fusion steps
  4-7 and `keywordSearchOnly`)
- `apps/backend/src/services/claude.ts` (`generateRAGResponse`,
  `generateMockResponse`)
- `apps/backend/src/routes.ts` (`POST /ask` source list)
-/

/-- JavaScript string model: a list of characters. -/
abbrev JStr := List Char

/-- JS `s.trim()`: drop whitespace from both ends. -/
def jtrim (s : JStr) : JStr :=
  ((s.dropWhile Char.isWhitespace).reverse.dropWhile Char.isWhitespace).reverse

/-- JS `s.split(sep)` for a two-character separator `[a, b]`, scanning left to
right without overlap (this is the only separator shape `chunkText` uses:
`"\n\n"` and `". "`). -/
def jsplit2 (a b : Char) : JStr → List JStr
  | [] => [[]]
  | [c] => [[c]]
  | c :: d :: rest =>
    if c = a ∧ d = b then [] :: jsplit2 a b rest
    else
      match jsplit2 a b (d :: rest) with
      | [] => [[c]]
      | h :: t => (c :: h) :: t

/-- JS `s.split(sep)` for a one-character separator (used by the mock answer
builder, which splits on `"."`). -/
def jsplit1 (a : Char) : JStr → List JStr
  | [] => [[]]
  | c :: rest =>
    if c = a then [] :: jsplit1 a rest
    else
      match jsplit1 a rest with
      | [] => [[c]]
      | h :: t => (c :: h) :: t

/-- JS `parts.join(sep)`. -/
def jjoin (sep : JStr) : List JStr → JStr
  | [] => []
  | [x] => x
  | x :: xs => x ++ sep ++ jjoin sep xs

/-- JS `s.toLowerCase()` (ASCII-adequate model). -/
def jToLower (s : JStr) : JStr := s.map Char.toLower

/-- Decidable prefix test on character lists. -/
def leadsWith : JStr → JStr → Bool
  | [], _ => true
  | _ :: _, [] => false
  | a :: as, b :: bs => a = b && leadsWith as bs

/-- JS `hay.includes(needle)`: substring test. -/
def hasSegment (needle : JStr) : JStr → Bool
  | [] => needle.isEmpty
  | c :: rest => leadsWith needle (c :: rest) || hasSegment needle rest

/-- Decimal rendering of a natural number as a JS string. -/
def natToJStr (n : Nat) : JStr := (Nat.repr n).data

/-- Decimal rendering of an integer as a JS string. -/
def intToJStr (i : Int) : JStr := (Int.repr i).data

/-- JS `Math.round`: round half toward positive infinity. -/
def jround (q : ℚ) : ℤ := Int.floor (q + 1/2)

/- ------------------------------------------------------------------
FileProcessor.chunkText (fileProcessor.ts lines 234-276).
------------------------------------------------------------------ -/

/-- Separator string `". "` appended after every sentence in the inner loop. -/
def sDotSpace : String := ". "

/-- Separator string `"\n\n"` used between packed paragraphs. -/
def sNewlines : String := "\n\n"

/-- Inner `for (const sentence of sentences)` loop of `chunkText`
(fileProcessor.ts lines 250-258).  State is `(chunks, currentChunk)`. -/
def sentenceLoop (maxChunkSize : Nat) : List JStr → List JStr × JStr → List JStr × JStr
  | [], st => st
  | s :: rest, (chunks, currentChunk) =>
    let st1 :=
      if maxChunkSize < currentChunk.length + s.length then
        if 0 < (jtrim currentChunk).length then (chunks ++ [jtrim currentChunk], ([] : JStr))
        else (chunks, currentChunk)
      else (chunks, currentChunk)
    sentenceLoop maxChunkSize rest (st1.1, st1.2 ++ s ++ sDotSpace.data)

/-- Sentence list of a paragraph: `paragraph.split('. ').filter(s => s.trim().length > 0)`
(fileProcessor.ts line 248). -/
def sentencesOf (p : JStr) : List JStr :=
  (jsplit2 '.' ' ' p).filter (fun s => 0 < (jtrim s).length)

/-- Outer `for (const paragraph of paragraphs)` loop of `chunkText`
(fileProcessor.ts lines 240-265). -/
def paragraphLoop (maxChunkSize : Nat) : List JStr → List JStr × JStr → List JStr × JStr
  | [], st => st
  | p :: rest, (chunks, currentChunk) =>
    let st1 :=
      if maxChunkSize < currentChunk.length + p.length then
        let flushed :=
          if 0 < (jtrim currentChunk).length then (chunks ++ [jtrim currentChunk], ([] : JStr))
          else (chunks, currentChunk)
        if maxChunkSize < p.length then
          sentenceLoop maxChunkSize (sentencesOf p) flushed
        else (flushed.1, p)
      else (chunks, currentChunk ++ (if 0 < currentChunk.length then sNewlines.data else ([] : JStr)) ++ p)
    paragraphLoop maxChunkSize rest st1

/-- Paragraph list of the input: `text.split('\n\n').filter(p => p.trim().length > 0)`
(fileProcessor.ts line 236). -/
def paragraphsOf (text : JStr) : List JStr :=
  (jsplit2 '\n' '\n' text).filter (fun p => 0 < (jtrim p).length)

/-- `FileProcessor.chunkText(text, maxChunkSize = 1000)`
(fileProcessor.ts lines 234-276): greedy paragraph packing, sentence splitting
for oversized paragraphs, final flush of the pending chunk, and the
single-truncated-chunk fallback when nothing was produced. -/
def chunkText (text : JStr) (maxChunkSize : Nat) : List JStr :=
  let st := paragraphLoop maxChunkSize (paragraphsOf text) ([], [])
  let chunks := if 0 < (jtrim st.2).length then st.1 ++ [jtrim st.2] else st.1
  if chunks = [] then [text.take maxChunkSize] else chunks

/- ------------------------------------------------------------------
EmbeddingService (embeddings.ts, shown inside fileProcessor.ts lines 317-422):
module state `embeddingPipeline` / `initializationAttempted`, `initialize`,
`generateEmbedding`, `cosineSimilarity`.
------------------------------------------------------------------ -/

/-- Module-level mutable state of `embeddings.ts`:
`initializationAttempted` and whether `embeddingPipeline` is non-null. -/
structure EmbState where
  attempted : Bool
  pipelineLoaded : Bool
deriving DecidableEq, Repr

/-- Errors thrown by `EmbeddingService.initialize`. -/
inductive InitError
  | alreadyAttempted
  | loadFailed
deriving DecidableEq, Repr

/-- `EmbeddingService.initialize` (lines 328-356).  `loadOk` is the outcome of
the external model-load call; the function first throws if a previous call
already set `initializationAttempted`, then sets the flag before attempting
the load, so even a failed first call marks the service as attempted. -/
def initEmbeddingService (s : EmbState) (loadOk : Bool) : Except InitError Unit × EmbState :=
  if s.attempted then (Except.error InitError.alreadyAttempted, s)
  else if loadOk then (Except.ok (), ⟨true, true⟩)
  else (Except.error InitError.loadFailed, ⟨true, false⟩)

/-- `EmbeddingService.isInitialized` (lines 359-361). -/
def isInitializedService (s : EmbState) : Bool := s.pipelineLoaded

/-- Errors thrown by `EmbeddingService.generateEmbedding`. -/
inductive EmbeddingError
  | notInitialized
  | emptyText
deriving DecidableEq, Repr

/-- `EmbeddingService.generateEmbedding` (lines 364-391).  `pipe` abstracts the
loaded transformer pipeline.  The code throws when the pipeline is null, then
computes `text.trim().toLowerCase()` and throws `Error('Empty text provided')`
when that is empty; otherwise it returns the pipeline's vector. -/
def generateEmbedding (s : EmbState) (pipe : JStr → List ℚ) (text : JStr) :
    Except EmbeddingError (List ℚ) :=
  if ¬ s.pipelineLoaded then Except.error EmbeddingError.notInitialized
  else
    let cleanText := jToLower (jtrim text)
    if cleanText = [] then Except.error EmbeddingError.emptyText
    else Except.ok (pipe cleanText)

/-- `EmbeddingService.cosineSimilarity` (lines 406-422), for equal-length
vectors: dot product over the product of Euclidean norms. -/
noncomputable def cosineSimilarity (e1 e2 : List ℝ) : ℝ :=
  let dotProduct := ((e1.zip e2).map (fun p => p.1 * p.2)).sum
  let norm1 := (e1.map (fun x => x * x)).sum
  let norm2 := (e2.map (fun x => x * x)).sum
  dotProduct / (Real.sqrt norm1 * Real.sqrt norm2)

/- ------------------------------------------------------------------
opensearchService.searchDocuments fusion (opensearch.ts lines 223-301) and
keywordSearchOnly (lines 306-395).
------------------------------------------------------------------ -/

/-- A `SearchResult` as produced by `opensearch.ts`. -/
structure SearchResult where
  id : String
  title : String
  content : String
  source : String
  technology : String
  score : ℚ
deriving DecidableEq, Repr

/-- A raw keyword hit: OpenSearch `_id`, `_source` fields, and raw `_score`.
The excerpt/highlight text manipulation is kept abstract in `content`. -/
structure RawHit where
  id : String
  title : String
  content : String
  source : String
  technology : String
  rawScore : ℚ
deriving DecidableEq, Repr

/-- `Map.set` on the insertion-ordered id-keyed map `combinedResults`:
replace the entry with the same id in place, else append. -/
def mapSet : List SearchResult → SearchResult → List SearchResult
  | [], r => [r]
  | x :: xs, r => if x.id = r.id then r :: xs else x :: mapSet xs r

/-- Vector-result entry: `{ ...doc, score: doc.score * 0.7 }`
(opensearch.ts lines 264-269). -/
def scaleVector (d : SearchResult) : SearchResult :=
  { d with score := d.score * (7/10) }

/-- The highlighted-excerpt marker string. -/
def sMark : String := "<mark>"

/-- JS `result.content.includes('<mark>')` (opensearch.ts line 277). -/
def containsMark (content : String) : Bool := hasSegment sMark.data content.data

/-- Step 6a of `searchDocuments`: add the (already sorted and sliced) vector
results to the map with weight 0.7 (opensearch.ts lines 263-269). -/
def addVectorResults (acc : List SearchResult) (vhits : List SearchResult) : List SearchResult :=
  vhits.foldl (fun m d => mapSet m (scaleVector d)) acc

/-- Step 6b of `searchDocuments` for one keyword result (opensearch.ts lines
272-286): an id already present gets `min(existing.score + result.score * 0.3, 1)`
(and the highlighted excerpt when available); a new id is inserted with
`result.score * 0.5`. -/
def addKeywordResult (m : List SearchResult) (r : SearchResult) : List SearchResult :=
  match m.find? (fun x => x.id = r.id) with
  | some existing =>
    mapSet m { existing with
      score := min (existing.score + r.score * (3/10)) 1,
      content := if containsMark r.content then r.content else existing.content }
  | none => mapSet m { r with score := r.score * (1/2) }

/-- Step 6b of `searchDocuments` over the whole keyword result list. -/
def addKeywordResults (m : List SearchResult) (khits : List SearchResult) : List SearchResult :=
  khits.foldl addKeywordResult m

/-- Step 6 of `searchDocuments`: the whole merge/deduplication into
`combinedResults` (opensearch.ts lines 260-286). -/
def hybridMerge (vhits khits : List SearchResult) : List SearchResult :=
  addKeywordResults (addVectorResults [] vhits) khits

/-- Stable descending insertion by score (helper for the JS stable
`sort((a, b) => b.score - a.score)`). -/
def insertDesc (r : SearchResult) : List SearchResult → List SearchResult
  | [] => [r]
  | x :: xs => if x.score < r.score then r :: x :: xs else x :: insertDesc r xs

/-- JS `results.sort((a, b) => b.score - a.score)`: the stable descending
order by score, realized as a stable insertion sort. -/
def sortByScoreDesc : List SearchResult → List SearchResult
  | [] => []
  | x :: xs => insertDesc x (sortByScoreDesc xs)

/-- Step 5 of `searchDocuments` (opensearch.ts lines 251-258): a keyword hit
becomes a `SearchResult` with `score: hit._score / 10`. -/
def mkKeywordResult (h : RawHit) : SearchResult :=
  ⟨h.id, h.title, h.content, h.source, h.technology, h.rawScore / 10⟩

/-- Steps 4-7 of the hybrid `searchDocuments` (opensearch.ts lines 247-296),
given the vector candidates (each carrying its cosine similarity as `score`)
and the raw keyword hits: sort vector results by similarity, normalize keyword
scores by 10, merge with weights 0.7/0.3/0.5, sort by fused score, truncate. -/
def searchDocumentsCore (vectorCandidates : List SearchResult) (keywordHits : List RawHit)
    (size : Nat) : List SearchResult :=
  let vectorSorted := sortByScoreDesc vectorCandidates
  let keywordResults := keywordHits.map mkKeywordResult
  let combined := hybridMerge (vectorSorted.take size) keywordResults
  (sortByScoreDesc combined).take size

/-- `opensearchService.keywordSearchOnly` (opensearch.ts lines 306-395): on a
successful query each hit scores `Math.min(hit._score / 10, 1)`; any thrown
error is caught and yields `[]`. -/
def keywordSearchOnlyRun (outcome : Except Unit (List RawHit)) (size : Nat) : List SearchResult :=
  match outcome with
  | Except.ok hits =>
    hits.map (fun h => (⟨h.id, h.title, h.content, h.source, h.technology,
      min (h.rawScore / 10) 1⟩ : SearchResult))
  | Except.error _ => []

/-- `opensearchService.searchDocuments` (opensearch.ts lines 112-302) at the
outcome level: a successful hybrid try runs the fusion pipeline; any thrown
error in the try block is caught and falls back to `keywordSearchOnly`. -/
def searchDocumentsRun (hybridOutcome : Except Unit (List SearchResult × List RawHit))
    (keywordOutcome : Except Unit (List RawHit)) (size : Nat) : List SearchResult :=
  match hybridOutcome with
  | Except.ok (v, k) => searchDocumentsCore v k size
  | Except.error _ => keywordSearchOnlyRun keywordOutcome size

/-- Score assigned to id `i` by the merged map (`none` when `i` is absent). -/
def scoreOf (m : List SearchResult) (i : String) : Option ℚ :=
  (m.find? (fun r => r.id = i)).map SearchResult.score

/-- The ids of a result list are pairwise distinct (true of OpenSearch hit
lists, which are keyed by `_id`). -/
def idsNodup (l : List SearchResult) : Prop := (l.map SearchResult.id).Nodup

/- ------------------------------------------------------------------
claudeService (claude.ts) and the POST /ask route (routes.ts lines 69-102).
------------------------------------------------------------------ -/

/-- One block of an Anthropic API message response: a text block or any other
block type. -/
inductive ContentBlock
  | text (s : JStr)
  | other
deriving DecidableEq, Repr

/-- The successful Anthropic API response shape used by `generateRAGResponse`. -/
structure ApiResponse where
  content : List ContentBlock
deriving DecidableEq, Repr

/-- One retrieved document as passed in `RAGContext.documents` (claude.ts
lines 8-16). -/
structure RAGDoc where
  title : JStr
  content : JStr
  source : JStr
  score : ℚ
deriving DecidableEq, Repr

/-- `RAGContext` (claude.ts lines 8-16). -/
structure RAGContext where
  query : JStr
  documents : List RAGDoc
deriving DecidableEq, Repr

/-- `ClaudeResponse` (claude.ts lines 3-6). -/
structure ClaudeResponse where
  answer : JStr
  reasoning : JStr
deriving DecidableEq, Repr

/-- Fixed no-documents answer on the API-key path (claude.ts line 34). -/
def noDocsAnswerKeyed : String :=
  "I couldn\x27t find any relevant documents in your knowledge base to answer this question. Try uploading some technical documentation or adjusting your search terms."

/-- Fixed no-documents answer inside the mock path (claude.ts line 116). -/
def noDocsAnswerMock : String :=
  "I couldn\x27t find any relevant documents to answer your question. Try uploading some technical documentation or adjusting your search terms."

/-- Fixed no-documents reasoning, identical on both paths (claude.ts lines 35
and 117). -/
def noDocsReasoning : String := "No relevant documents found in the knowledge base."

/-- Mock answer fragments (claude.ts lines 124-138), in source order. -/
def sHow : String := "how"

/-- Query keyword `"what"` tested by the mock branch. -/
def sWhat : String := "what"

/-- Mock how/what-branch opening. -/
def mockHowOpenA : String := "Based on the documentation I found, here\x27s what I can tell you about "

/-- Colon and blank line after the echoed query. -/
def mockHowOpenB : String := ":\n\n"

/-- Sentence-period plus blank line after the extracted sentences. -/
def mockDotNN : String := ".\n\n"

/-- Related-information fragment, first half. -/
def mockAlsoA : String := "I also found related information in "

/-- Related-information fragment, second half. -/
def mockAlsoB : String := " other document(s). "

/-- Top-source attribution, first half (how/what branch). -/
def mockFromA : String := "The most relevant information comes from \""

/-- Top-source attribution, second half (how/what branch). -/
def mockFromB : String := "\"."

/-- General-branch opening, first half. -/
def mockGenA : String := "I found relevant information about \""

/-- General-branch opening, second half. -/
def mockGenB : String := "\" in your documentation:\n\n"

/-- Ellipsis plus blank line after the excerpt. -/
def mockDots : String := "...\n\n"

/-- General-branch attribution, first half. -/
def mockThisA : String := "This comes from \""

/-- General-branch attribution, second half. -/
def mockThisB : String := "\". "

/-- General-branch related-documents fragment, first half. -/
def mockMoreA : String := "I also found "

/-- General-branch related-documents fragment, second half. -/
def mockMoreB : String := " other relevant document(s) that might help."

/-- Trailing mock note appended to every non-empty mock answer (claude.ts
line 142). -/
def mockNote : String :=
  "\n\n(Note: This is a mock response - add your Claude API key to enable real AI responses)"

/-- Mock reasoning, first half (claude.ts line 143). -/
def mockReasonA : String := "Mock response generated. Found "

/-- Mock reasoning, second half. -/
def mockReasonB : String :=
  " relevant document(s). Add ANTHROPIC_API_KEY to environment for real Claude responses."

/-- The marker identifying a mock/fallback response inside `reasoning`. -/
def mockMarker : String := "Mock response"

/-- Success-path reasoning fragments (claude.ts line 88), in source order. -/
def genReasonA : String := "Generated response using Claude "

/-- Fragment between the model name and the document count. -/
def genReasonB : String := ". Found "

/-- Fragment between the document count and the top title. -/
def genReasonC : String := " relevant document(s). Top match: \""

/-- Fragment between the top title and the relevance percentage. -/
def genReasonD : String := "\" with "

/-- Trailing percent fragment. -/
def genReasonE : String := "% relevance."

/-- Answer sentinel when the first content block is not text (claude.ts
line 86). -/
def unableAnswer : String := "Unable to generate response"

/-- `claudeService.generateMockResponse` (claude.ts lines 108-145): the
deterministic templated answer built from the top retrieved document, with the
mock note appended and a mock-marked reasoning string. -/
def generateMockResponse (ctx : RAGContext) : ClaudeResponse :=
  match ctx.documents with
  | [] => ⟨noDocsAnswerMock.data, noDocsReasoning.data⟩
  | topDoc :: rest =>
    let n := rest.length + 1
    let lowered := jToLower ctx.query
    let answer :=
      if hasSegment sHow.data lowered || hasSegment sWhat.data lowered then
        let sentences := (jsplit1 '.' topDoc.content).take 3
        mockHowOpenA.data ++ ctx.query ++ mockHowOpenB.data ++
          jjoin sDotSpace.data sentences ++ mockDotNN.data ++
          (if 1 < n then mockAlsoA.data ++ natToJStr (n - 1) ++ mockAlsoB.data else []) ++
          mockFromA.data ++ topDoc.title ++ mockFromB.data
      else
        mockGenA.data ++ ctx.query ++ mockGenB.data ++
          topDoc.content.take 300 ++ mockDots.data ++
          mockThisA.data ++ topDoc.title ++ mockThisB.data ++
          (if 1 < n then mockMoreA.data ++ natToJStr (n - 1) ++ mockMoreB.data else [])
    ⟨answer ++ mockNote.data, mockReasonA.data ++ natToJStr n ++ mockReasonB.data⟩

/-- `claudeService.generateRAGResponse` (claude.ts lines 20-105).  `hasApiKey`
models the `ANTHROPIC_API_KEY` check, `modelName` the `CLAUDE_MODEL` value
interpolated into the reasoning, and `outcome` the Anthropic API call: a
thrown error is `Except.error`.  The boolean result records whether the
external generation call was dispatched.  A successful response whose content
list is empty makes `response.content[0].type` throw inside the `try`, which
the `catch` turns into the mock fallback as well. -/
def generateRAGResponse (modelName : String) (hasApiKey : Bool)
    (outcome : Except Unit ApiResponse) (ctx : RAGContext) : ClaudeResponse × Bool :=
  if ¬ hasApiKey then (generateMockResponse ctx, false)
  else
    match ctx.documents with
    | [] => (⟨noDocsAnswerKeyed.data, noDocsReasoning.data⟩, false)
    | topDoc :: rest =>
      match outcome with
      | Except.error _ => (generateMockResponse ctx, true)
      | Except.ok resp =>
        match resp.content with
        | [] => (generateMockResponse ctx, true)
        | blk :: _ =>
          let answer := match blk with
            | ContentBlock.text s => s
            | ContentBlock.other => unableAnswer.data
          let reasoning := genReasonA.data ++ modelName.data ++ genReasonB.data ++
            natToJStr (rest.length + 1) ++ genReasonC.data ++ topDoc.title ++
            genReasonD.data ++ intToJStr (jround (topDoc.score * 100)) ++ genReasonE.data
          (⟨answer, reasoning⟩, true)

/-- Sources array built by the `POST /ask` route (routes.ts lines 90-94):
title, source, and rounded percentage relevance per retrieved document. -/
def askSources (results : List RAGDoc) : List (JStr × JStr × ℤ) :=
  results.map (fun d => (d.title, d.source, jround (d.score * 100)))

/- ------------------------------------------------------------------
Concrete sample inputs used by counterexamples and witnesses.
------------------------------------------------------------------ -/

/-- Whitespace-only sample input (three spaces). -/
def sWS : String := "   "

/-- Sample result id. -/
def idA : String := "a"

/-- Sample input for `chunkText`: a single eight-character paragraph with no
sentence separator. -/
def sAs : String := "aaaaaaaa"

/-- The chunk `chunkText` produces for `sAs` at `maxChunkSize = 5`. -/
def sAsDot : String := "aaaaaaaa."

/-- Small two-character sample input for `chunkText`. -/
def sAb : String := "ab"

/- ------------------------------------------------------------------
Helper lemmas.
------------------------------------------------------------------ -/

theorem leadsWith_append (n b c : JStr) (h : leadsWith n b = true) :
    leadsWith n (b ++ c) = true := by
  induction n generalizing b with
  | nil => rfl
  | cons a as ih =>
    cases b with
    | nil => simp [leadsWith] at h
    | cons x xs =>
      simp only [leadsWith, Bool.and_eq_true] at h ⊢
      exact ⟨h.1, ih xs h.2⟩

theorem hasSegment_nil_needle (l : JStr) : hasSegment [] l = true := by
  cases l with
  | nil => rfl
  | cons c rest => simp [hasSegment, leadsWith]

theorem hasSegment_of_leadsWith (n b c : JStr) (h : leadsWith n b = true) :
    hasSegment n (b ++ c) = true := by
  cases b with
  | nil =>
    cases n with
    | nil => simpa using hasSegment_nil_needle c
    | cons a as => simp [leadsWith] at h
  | cons x xs =>
    have hl : leadsWith n ((x :: xs) ++ c) = true := leadsWith_append n (x :: xs) c h
    simp only [List.cons_append, hasSegment, Bool.or_eq_true]
    exact Or.inl (by simpa using hl)

/- ------------------------------------------------------------------
C5: empty retrieval short-circuits the RAG answer path.
------------------------------------------------------------------ -/

/-- C5: for every question whose retrieval step returns an empty result set,
`generateRAGResponse` returns the fixed no-relevant-documents answer (one
fixed string per API-key branch) with the fixed reasoning, the external
text-generation collaborator is never invoked (the dispatch flag is `false`
for every outcome of the collaborator), and the `/ask` route's source list is
empty, i.e. zero citations. -/
theorem C5_empty_retrieval_no_generation (modelName : String) (hasApiKey : Bool)
    (outcome : Except Unit ApiResponse) (q : JStr) :
    (generateRAGResponse modelName hasApiKey outcome ⟨q, []⟩).2 = false ∧
    (generateRAGResponse modelName hasApiKey outcome ⟨q, []⟩).1.reasoning = noDocsReasoning.data ∧
    ((generateRAGResponse modelName hasApiKey outcome ⟨q, []⟩).1.answer = noDocsAnswerKeyed.data ∨
      (generateRAGResponse modelName hasApiKey outcome ⟨q, []⟩).1.answer = noDocsAnswerMock.data) ∧
    askSources [] = [] := by
  cases hasApiKey <;>
    simp [generateRAGResponse, generateMockResponse, askSources]

/- ------------------------------------------------------------------
C6: generation failure resolves to the marked mock fallback.
------------------------------------------------------------------ -/

/-- C6: when the external generation call fails — the API call throws
(timeout, quota, network or malformed-payload error from the SDK), or it
resolves with an empty content array so that `response.content[0].type`
throws inside the `try` — `generateRAGResponse` returns the deterministic
mock answer synthesized from the retrieved documents as an ordinary value
(no error propagates), and its reasoning carries the "Mock response" marker
distinguishing it from a genuine generated answer. -/
theorem C6_generation_failure_fallback (modelName : String) (ctx : RAGContext)
    (h : ctx.documents ≠ []) :
    generateRAGResponse modelName true (Except.error ()) ctx = (generateMockResponse ctx, true) ∧
    generateRAGResponse modelName true (Except.ok ⟨[]⟩) ctx = (generateMockResponse ctx, true) ∧
    hasSegment mockMarker.data (generateMockResponse ctx).reasoning = true := by
  cases hd : ctx.documents with
  | nil => exact absurd hd h
  | cons topDoc rest =>
    refine ⟨?_, ?_, ?_⟩
    · simp [generateRAGResponse, hd]
    · simp [generateRAGResponse, hd]
    · simp only [generateMockResponse, hd]
      exact hasSegment_of_leadsWith mockMarker.data mockReasonA.data _ (by decide)

/-- C6 witness: a concrete one-document context satisfying the hypothesis,
with the fallback equations and marker given by the theorem. -/
theorem C6_generation_failure_fallback_witness :
    (({ query := [], documents := [⟨[], [], [], 1⟩] } : RAGContext).documents ≠ []) ∧
    (generateRAGResponse noDocsReasoning true (Except.error ())
        { query := [], documents := [⟨[], [], [], 1⟩] } =
      (generateMockResponse { query := [], documents := [⟨[], [], [], 1⟩] }, true) ∧
    generateRAGResponse noDocsReasoning true (Except.ok ⟨[]⟩)
        { query := [], documents := [⟨[], [], [], 1⟩] } =
      (generateMockResponse { query := [], documents := [⟨[], [], [], 1⟩] }, true) ∧
    hasSegment mockMarker.data
      (generateMockResponse { query := [], documents := [⟨[], [], [], 1⟩] }).reasoning = true) :=
  ⟨by decide, C6_generation_failure_fallback noDocsReasoning
    { query := [], documents := [⟨[], [], [], 1⟩] } (by decide)⟩

/- ------------------------------------------------------------------
C7: embedding an empty or whitespace-only string fails.
------------------------------------------------------------------ -/

/-- C7: with the model initialized, `generateEmbedding` on an input whose
trim is empty fails with the invalid-input error (`Error('Empty text
provided')` in the source) and never returns a vector. -/
theorem C7_empty_text_invalid_input (s : EmbState) (pipe : JStr → List ℚ) (text : JStr)
    (hs : s.pipelineLoaded = true) (h : jtrim text = []) :
    generateEmbedding s pipe text = Except.error EmbeddingError.emptyText ∧
    ∀ v : List ℚ, generateEmbedding s pipe text ≠ Except.ok v := by
  have : generateEmbedding s pipe text = Except.error EmbeddingError.emptyText := by
    simp [generateEmbedding, hs, h, jToLower]
  exact ⟨this, fun v hv => by rw [this] at hv; exact Except.noConfusion hv⟩

/-- C7 witness: the loaded state and the three-space input satisfy the
hypotheses, and the theorem yields the invalid-input failure. -/
theorem C7_empty_text_invalid_input_witness :
    ((⟨true, true⟩ : EmbState).pipelineLoaded = true ∧ jtrim sWS.data = []) ∧
    (generateEmbedding ⟨true, true⟩ (fun _ => []) sWS.data =
        Except.error EmbeddingError.emptyText ∧
      ∀ v : List ℚ, generateEmbedding ⟨true, true⟩ (fun _ => []) sWS.data ≠ Except.ok v) :=
  ⟨⟨by decide, by decide⟩,
    C7_empty_text_invalid_input ⟨true, true⟩ (fun _ => []) sWS.data (by decide) (by decide)⟩

/- ------------------------------------------------------------------
C8: a second initialize call always fails.
------------------------------------------------------------------ -/

/-- C8: starting from the fresh module state, a second call to
`EmbeddingService.initialize` fails with the already-attempted error no
matter whether the first call's model load succeeded or failed. -/
theorem C8_second_init_fails (firstLoadOk secondLoadOk : Bool) :
    (initEmbeddingService (initEmbeddingService ⟨false, false⟩ firstLoadOk).2 secondLoadOk).1 =
      Except.error InitError.alreadyAttempted := by
  cases firstLoadOk <;> rfl

/- ------------------------------------------------------------------
C10: searchDocuments never surfaces an internal failure.
------------------------------------------------------------------ -/

/-- C10: `searchDocuments` is total over its call outcomes — a failed hybrid
try falls back to `keywordSearchOnly` exactly, and when that also fails the
result is the empty list, so a caller observes every internal failure as an
ordinary (possibly empty) result list, never an exception. -/
theorem C10_failure_fallback (size : Nat) (keywordOutcome : Except Unit (List RawHit)) :
    searchDocumentsRun (Except.error ()) keywordOutcome size =
      keywordSearchOnlyRun keywordOutcome size ∧
    keywordSearchOnlyRun (Except.error ()) size = [] ∧
    searchDocumentsRun (Except.error ()) (Except.error ()) size = [] := by
  exact ⟨rfl, rfl, rfl⟩

/- ------------------------------------------------------------------
Association-list lemmas for the merge map (Step 6 of searchDocuments).
------------------------------------------------------------------ -/

theorem find?_mapSet_self (m : List SearchResult) (r : SearchResult) :
    (mapSet m r).find? (fun x => x.id = r.id) = some r := by
  induction m with
  | nil => simp [mapSet, List.find?]
  | cons x xs ih =>
    by_cases h : x.id = r.id
    · simp [mapSet, h, List.find?]
    · simp only [mapSet, if_neg h]
      rw [List.find?_cons_of_neg _ (by simp [h])]
      exact ih

theorem find?_mapSet_ne (m : List SearchResult) (r : SearchResult) (i : String)
    (h : r.id ≠ i) :
    (mapSet m r).find? (fun x => x.id = i) = m.find? (fun x => x.id = i) := by
  induction m with
  | nil => simp [mapSet, List.find?, h]
  | cons x xs ih =>
    by_cases hx : x.id = r.id
    · simp only [mapSet, if_pos hx]
      rw [List.find?_cons_of_neg _ (by simp [h]),
        List.find?_cons_of_neg _ (by simp [hx ▸ h])]
    · simp only [mapSet, if_neg hx]
      by_cases hxi : x.id = i
      · rw [List.find?_cons_of_pos _ (by simp [hxi]),
          List.find?_cons_of_pos _ (by simp [hxi])]
      · rw [List.find?_cons_of_neg _ (by simp [hxi]),
          List.find?_cons_of_neg _ (by simp [hxi])]
        exact ih

theorem find?_mapSet_of_id (m : List SearchResult) (r : SearchResult) (i : String)
    (h : r.id = i) : (mapSet m r).find? (fun x => x.id = i) = some r := by
  subst h
  exact find?_mapSet_self m r

theorem mem_mapSet (m : List SearchResult) (r x : SearchResult) (hx : x ∈ mapSet m r) :
    x = r ∨ x ∈ m := by
  induction m with
  | nil => simpa [mapSet] using hx
  | cons y ys ih =>
    by_cases h : y.id = r.id
    · simp only [mapSet, if_pos h, List.mem_cons] at hx
      rcases hx with hx | hx
      · exact Or.inl hx
      · exact Or.inr (List.mem_cons_of_mem y hx)
    · simp only [mapSet, if_neg h, List.mem_cons] at hx
      rcases hx with hx | hx
      · exact Or.inr (hx ▸ List.mem_cons_self y ys)
      · rcases ih hx with h1 | h1
        · exact Or.inl h1
        · exact Or.inr (List.mem_cons_of_mem y h1)

theorem scaleVector_id (d : SearchResult) : (scaleVector d).id = d.id := rfl

theorem addVectorResults_cons (acc : List SearchResult) (d : SearchResult)
    (ds : List SearchResult) :
    addVectorResults acc (d :: ds) = addVectorResults (mapSet acc (scaleVector d)) ds := rfl

theorem addVectorResults_find?_of_not_mem (vhits : List SearchResult) (i : String)
    (h : ∀ v ∈ vhits, v.id ≠ i) (acc : List SearchResult) :
    (addVectorResults acc vhits).find? (fun x => x.id = i) =
      acc.find? (fun x => x.id = i) := by
  induction vhits generalizing acc with
  | nil => rfl
  | cons d ds ih =>
    rw [addVectorResults_cons,
      ih (fun v hv => h v (List.mem_cons_of_mem d hv)),
      find?_mapSet_ne _ _ _ (by simpa using h d (List.mem_cons_self d ds))]

theorem idsNodup_tail (d : SearchResult) (ds : List SearchResult)
    (h : idsNodup (d :: ds)) : idsNodup ds := by
  simpa [idsNodup] using (List.nodup_cons.mp (by simpa [idsNodup] using h)).2

theorem idsNodup_head_ne (d : SearchResult) (ds : List SearchResult)
    (h : idsNodup (d :: ds)) : ∀ x ∈ ds, x.id ≠ d.id := by
  intro x hx hex
  have h1 : d.id ∉ ds.map SearchResult.id :=
    (List.nodup_cons.mp (by simpa [idsNodup] using h)).1
  exact h1 (hex ▸ List.mem_map_of_mem SearchResult.id hx)

theorem addVectorResults_find?_of_find? (vhits : List SearchResult) (i : String)
    (v : SearchResult) (hnd : idsNodup vhits)
    (hf : vhits.find? (fun x => x.id = i) = some v) (acc : List SearchResult) :
    (addVectorResults acc vhits).find? (fun x => x.id = i) = some (scaleVector v) := by
  induction vhits generalizing acc with
  | nil => simp [List.find?] at hf
  | cons d ds ih =>
    by_cases hd : d.id = i
    · rw [List.find?_cons_of_pos _ (by simp [hd])] at hf
      have hv : v = d := by simpa using hf.symm
      subst hv
      rw [addVectorResults_cons,
        addVectorResults_find?_of_not_mem ds i
          (fun x hx => by
            have := idsNodup_head_ne v ds hnd x hx
            simpa [hd] using this)
          (mapSet acc (scaleVector v))]
      exact find?_mapSet_of_id _ _ _ (by simpa [scaleVector_id] using hd)
    · rw [List.find?_cons_of_neg _ (by simp [hd])] at hf
      rw [addVectorResults_cons]
      exact ih (idsNodup_tail d ds hnd) hf (mapSet acc (scaleVector d))

theorem addKeywordResult_find?_ne (m : List SearchResult) (r : SearchResult) (i : String)
    (h : r.id ≠ i) :
    (addKeywordResult m r).find? (fun x => x.id = i) = m.find? (fun x => x.id = i) := by
  unfold addKeywordResult
  cases hf : m.find? (fun x => x.id = r.id) with
  | none =>
    exact find?_mapSet_ne m _ i h
  | some e =>
    have he : e.id = r.id := by simpa using List.find?_some hf
    exact find?_mapSet_ne m _ i (by simpa [he] using h)

theorem addKeywordResults_cons (m : List SearchResult) (c : SearchResult)
    (cs : List SearchResult) :
    addKeywordResults m (c :: cs) = addKeywordResults (addKeywordResult m c) cs := rfl

theorem addKeywordResults_find?_of_not_mem (khits : List SearchResult) (i : String)
    (h : ∀ k ∈ khits, k.id ≠ i) (m : List SearchResult) :
    (addKeywordResults m khits).find? (fun x => x.id = i) =
      m.find? (fun x => x.id = i) := by
  induction khits generalizing m with
  | nil => rfl
  | cons c cs ih =>
    rw [addKeywordResults_cons,
      ih (fun k hk => h k (List.mem_cons_of_mem c hk)),
      addKeywordResult_find?_ne _ _ _ (h c (List.mem_cons_self c cs))]

theorem addKeywordResults_find?_of_find? (khits : List SearchResult) (i : String)
    (k : SearchResult) (hnd : idsNodup khits)
    (hf : khits.find? (fun x => x.id = i) = some k) (m : List SearchResult) :
    (addKeywordResults m khits).find? (fun x => x.id = i) =
      match m.find? (fun x => x.id = i) with
      | some e => some { e with
          score := min (e.score + k.score * (3/10)) 1,
          content := if containsMark k.content then k.content else e.content }
      | none => some { k with score := k.score * (1/2) } := by
  induction khits generalizing m with
  | nil => simp [List.find?] at hf
  | cons c cs ih =>
    by_cases hc : c.id = i
    · subst hc
      rw [List.find?_cons_of_pos _ (by simp)] at hf
      have hk : k = c := by simpa using hf.symm
      subst hk
      rw [addKeywordResults_cons,
        addKeywordResults_find?_of_not_mem cs k.id (idsNodup_head_ne k cs hnd)
          (addKeywordResult m k)]
      unfold addKeywordResult
      cases hm : m.find? (fun x => x.id = k.id) with
      | none => exact find?_mapSet_of_id _ _ _ rfl
      | some e =>
        have he : e.id = k.id := by simpa using List.find?_some hm
        exact find?_mapSet_of_id _ _ _ he
    · rw [List.find?_cons_of_neg _ (by simp [hc])] at hf
      rw [addKeywordResults_cons, ih (idsNodup_tail c cs hnd) hf (addKeywordResult m c),
        addKeywordResult_find?_ne m c i (by simpa using hc)]

theorem find?_of_mem_nodup (l : List SearchResult) (v : SearchResult) (i : String)
    (hnd : idsNodup l) (hv : v ∈ l) (hid : v.id = i) :
    l.find? (fun x => x.id = i) = some v := by
  induction l with
  | nil => exact absurd hv (List.not_mem_nil v)
  | cons x xs ih =>
    rcases List.mem_cons.mp hv with hx | hx
    · subst hx
      exact List.find?_cons_of_pos _ (by simp [hid])
    · have hxne : x.id ≠ i := by
        intro hxi
        exact idsNodup_head_ne x xs hnd v hx (hid.trans hxi.symm)
      rw [List.find?_cons_of_neg _ (by simp [hxne])]
      exact ih (idsNodup_tail x xs hnd) hx

/- ------------------------------------------------------------------
C1: the fused score assigned to each unique id by the merge step.
------------------------------------------------------------------ -/

/-- C1 counterexample: the claim says a hit present only in the vector signal
receives `0.5 * vectorScore`, but the merge step gives the single vector hit
of similarity 1 the fused score `0.7`, not `0.5`. -/
theorem C1_claim_counterexample :
    scoreOf (hybridMerge [⟨idA, idA, idA, idA, idA, 1⟩] []) idA = some (7/10) ∧
    ¬ ((7 : ℚ)/10 = 1 * (1/2)) := by
  constructor
  · show scoreOf (mapSet [] (scaleVector ⟨idA, idA, idA, idA, idA, 1⟩)) idA = some (7/10)
    simp [mapSet, scaleVector, scoreOf, List.find?, idA]
  · norm_num

/-- C1 amended: for hit lists with pairwise-distinct ids (as OpenSearch
returns them), the merge step assigns id `i` the fused score
`min(0.7 * vectorScore + 0.3 * keywordScore, 1)` when `i` is in both the
(sliced) vector candidate set and the keyword set, `0.7 * vectorScore` when
only the vector signal hit it, and `0.5 * keywordScore` when only the keyword
signal hit it. -/
theorem C1_merge_scores_amended (vhits khits : List SearchResult) (i : String)
    (hv : idsNodup vhits) (hk : idsNodup khits) :
    (∀ v ∈ vhits, v.id = i → ∀ k ∈ khits, k.id = i →
      scoreOf (hybridMerge vhits khits) i =
        some (min (v.score * (7/10) + k.score * (3/10)) 1)) ∧
    (∀ v ∈ vhits, v.id = i → (∀ k ∈ khits, k.id ≠ i) →
      scoreOf (hybridMerge vhits khits) i = some (v.score * (7/10))) ∧
    ((∀ v ∈ vhits, v.id ≠ i) → ∀ k ∈ khits, k.id = i →
      scoreOf (hybridMerge vhits khits) i = some (k.score * (1/2))) := by
  refine ⟨?_, ?_, ?_⟩
  · intro v hvm hvi k hkm hki
    have h1 := addVectorResults_find?_of_find? vhits i v hv
      (find?_of_mem_nodup vhits v i hv hvm hvi) []
    have h2 := addKeywordResults_find?_of_find? khits i k hk
      (find?_of_mem_nodup khits k i hk hkm hki) (addVectorResults [] vhits)
    rw [h1] at h2
    simp only [hybridMerge, scoreOf, h2]
    simp [scaleVector]
  · intro v hvm hvi hknone
    have h1 := addVectorResults_find?_of_find? vhits i v hv
      (find?_of_mem_nodup vhits v i hv hvm hvi) []
    have h2 := addKeywordResults_find?_of_not_mem khits i hknone (addVectorResults [] vhits)
    rw [h1] at h2
    simp only [hybridMerge, scoreOf, h2]
    simp [scaleVector]
  · intro hvnone k hkm hki
    have h1 := addVectorResults_find?_of_not_mem vhits i hvnone []
    have h2 := addKeywordResults_find?_of_find? khits i k hk
      (find?_of_mem_nodup khits k i hk hkm hki) (addVectorResults [] vhits)
    rw [h1] at h2
    simp only [List.find?_nil] at h2
    simp only [hybridMerge, scoreOf, h2]
    simp

/-- C1 witness: singleton vector and keyword hit lists with the same id
satisfy the distinct-ids hypotheses, and the theorem gives the three fused
score equations at these inputs. -/
theorem C1_merge_scores_amended_witness :
    (idsNodup [(⟨idA, idA, idA, idA, idA, 1⟩ : SearchResult)] ∧
      idsNodup [(⟨idA, idA, idA, idA, idA, 0⟩ : SearchResult)]) ∧
    ((∀ v ∈ [(⟨idA, idA, idA, idA, idA, 1⟩ : SearchResult)], v.id = idA →
      ∀ k ∈ [(⟨idA, idA, idA, idA, idA, 0⟩ : SearchResult)], k.id = idA →
      scoreOf (hybridMerge [⟨idA, idA, idA, idA, idA, 1⟩] [⟨idA, idA, idA, idA, idA, 0⟩]) idA =
        some (min (v.score * (7/10) + k.score * (3/10)) 1)) ∧
    (∀ v ∈ [(⟨idA, idA, idA, idA, idA, 1⟩ : SearchResult)], v.id = idA →
      (∀ k ∈ [(⟨idA, idA, idA, idA, idA, 0⟩ : SearchResult)], k.id ≠ idA) →
      scoreOf (hybridMerge [⟨idA, idA, idA, idA, idA, 1⟩] [⟨idA, idA, idA, idA, idA, 0⟩]) idA =
        some (v.score * (7/10))) ∧
    ((∀ v ∈ [(⟨idA, idA, idA, idA, idA, 1⟩ : SearchResult)], v.id ≠ idA) →
      ∀ k ∈ [(⟨idA, idA, idA, idA, idA, 0⟩ : SearchResult)], k.id = idA →
      scoreOf (hybridMerge [⟨idA, idA, idA, idA, idA, 1⟩] [⟨idA, idA, idA, idA, idA, 0⟩]) idA =
        some (k.score * (1/2)))) :=
  ⟨⟨by simp [idsNodup], by simp [idsNodup]⟩,
    C1_merge_scores_amended [⟨idA, idA, idA, idA, idA, 1⟩] [⟨idA, idA, idA, idA, idA, 0⟩]
      idA (by simp [idsNodup]) (by simp [idsNodup])⟩

/- ------------------------------------------------------------------
C3: dual-signal versus single-signal fused scores.
------------------------------------------------------------------ -/

/-- C3 counterexample: a chunk hit by both signals with vector similarity 0
and normalized keyword score 1 fuses to `0.3`, while the same chunk with the
same keyword score present only in the keyword signal fuses to `0.5`, so the
dual-signal score is strictly smaller. -/
theorem C3_claim_counterexample :
    scoreOf (hybridMerge [⟨idA, idA, idA, idA, idA, 0⟩] [⟨idA, idA, idA, idA, idA, 1⟩]) idA =
      some (3/10) ∧
    scoreOf (hybridMerge [] [⟨idA, idA, idA, idA, idA, 1⟩]) idA = some (1/2) ∧
    ¬ ((1 : ℚ)/2 ≤ 3/10) := by
  refine ⟨?_, ?_, by norm_num⟩
  · simp [hybridMerge, addKeywordResults, addKeywordResult, addVectorResults, mapSet,
      scaleVector, scoreOf, List.find?, List.foldl, idA]
    norm_num
  · simp [hybridMerge, addKeywordResults, addKeywordResult, addVectorResults, mapSet,
      scaleVector, scoreOf, List.find?, List.foldl, idA]

/-- C3 amended: with both signal scores in `[0,1]`, the dual-signal fused
score `min(0.7v + 0.3k, 1)` is always at least the vector-only fused score
`0.7v`, and it is at least the keyword-only fused score `0.5k` if and only if
`2k ≤ 7v`; the counterexample shows the keyword-only comparison fails without
that condition. -/
theorem C3_dual_signal_amended (i t1 c1 s1 g1 t2 c2 s2 g2 : String) (v k : ℚ)
    (hv0 : 0 ≤ v) (hv1 : v ≤ 1) (hk0 : 0 ≤ k) (hk1 : k ≤ 1) :
    scoreOf (hybridMerge [⟨i, t1, c1, s1, g1, v⟩] [⟨i, t2, c2, s2, g2, k⟩]) i =
      some (min (v * (7/10) + k * (3/10)) 1) ∧
    scoreOf (hybridMerge [⟨i, t1, c1, s1, g1, v⟩] []) i = some (v * (7/10)) ∧
    scoreOf (hybridMerge [] [⟨i, t2, c2, s2, g2, k⟩]) i = some (k * (1/2)) ∧
    v * (7/10) ≤ min (v * (7/10) + k * (3/10)) 1 ∧
    (k * (1/2) ≤ min (v * (7/10) + k * (3/10)) 1 ↔ 2 * k ≤ 7 * v) := by
  refine ⟨?_, ?_, ?_, ?_, ?_, ?_⟩
  · simp [hybridMerge, addKeywordResults, addKeywordResult, addVectorResults, mapSet,
      scaleVector, scoreOf, List.find?, List.foldl]
  · simp [hybridMerge, addKeywordResults, addKeywordResult, addVectorResults, mapSet,
      scaleVector, scoreOf, List.find?, List.foldl]
  · simp [hybridMerge, addKeywordResults, addKeywordResult, addVectorResults, mapSet,
      scaleVector, scoreOf, List.find?, List.foldl]
  · have hks : (0 : ℚ) ≤ k * (3/10) := mul_nonneg hk0 (by norm_num)
    have hv7 : v * (7/10) ≤ 1 * (7/10) := mul_le_mul_of_nonneg_right hv1 (by norm_num)
    exact le_min (by linarith) (by linarith)
  · intro h
    have h1 : k * (1/2) ≤ v * (7/10) + k * (3/10) := le_trans h (min_le_left _ _)
    linarith
  · intro h
    exact le_min (by linarith) (by linarith)

/-- C3 witness: concrete scores `v = 1`, `k = 0` satisfy every hypothesis,
and the theorem yields the fused-score equations, the unconditional
vector-only comparison, and the keyword-only biconditional. -/
theorem C3_dual_signal_amended_witness :
    ((0 : ℚ) ≤ 1 ∧ (1 : ℚ) ≤ 1 ∧ (0 : ℚ) ≤ 0 ∧ (0 : ℚ) ≤ 1) ∧
    (scoreOf (hybridMerge [⟨idA, idA, idA, idA, idA, 1⟩] [⟨idA, idA, idA, idA, idA, 0⟩]) idA =
        some (min ((1 : ℚ) * (7/10) + 0 * (3/10)) 1) ∧
      scoreOf (hybridMerge [⟨idA, idA, idA, idA, idA, 1⟩] []) idA = some ((1 : ℚ) * (7/10)) ∧
      scoreOf (hybridMerge [] [⟨idA, idA, idA, idA, idA, 0⟩]) idA = some ((0 : ℚ) * (1/2)) ∧
      (1 : ℚ) * (7/10) ≤ min ((1 : ℚ) * (7/10) + 0 * (3/10)) 1 ∧
      ((0 : ℚ) * (1/2) ≤ min ((1 : ℚ) * (7/10) + 0 * (3/10)) 1 ↔ (2 : ℚ) * 0 ≤ 7 * 1)) :=
  ⟨⟨by decide, by decide, by decide, by decide⟩,
    C3_dual_signal_amended idA idA idA idA idA idA idA idA idA 1 0
      (by decide) (by decide) (by decide) (by decide)⟩

/- ------------------------------------------------------------------
C2: range of the scores returned by searchDocuments.
------------------------------------------------------------------ -/

theorem cosineSimilarity_can_be_negative : cosineSimilarity [1] [-1] = -1 := by
  simp [cosineSimilarity]

theorem mem_addVectorResults (vhits acc : List SearchResult) (x : SearchResult)
    (hx : x ∈ addVectorResults acc vhits) :
    x ∈ acc ∨ ∃ d ∈ vhits, x = scaleVector d := by
  induction vhits generalizing acc with
  | nil => exact Or.inl hx
  | cons d ds ih =>
    rw [addVectorResults_cons] at hx
    rcases ih (mapSet acc (scaleVector d)) hx with h1 | h1
    · rcases mem_mapSet acc (scaleVector d) x h1 with h2 | h2
      · exact Or.inr ⟨d, List.mem_cons_self d ds, h2⟩
      · exact Or.inl h2
    · rcases h1 with ⟨d1, hd1, hd2⟩
      exact Or.inr ⟨d1, List.mem_cons_of_mem d hd1, hd2⟩

theorem addKeywordResult_bounds (m : List SearchResult) (r : SearchResult)
    (hm : ∀ x ∈ m, 0 ≤ x.score ∧ x.score ≤ 1) (hr : 0 ≤ r.score ∧ r.score ≤ 1) :
    ∀ x ∈ addKeywordResult m r, 0 ≤ x.score ∧ x.score ≤ 1 := by
  unfold addKeywordResult
  cases hf : m.find? (fun y => y.id = r.id) with
  | none =>
    intro x hx
    rcases mem_mapSet m _ x hx with h1 | h1
    · subst h1
      refine ⟨mul_nonneg hr.1 (by norm_num), ?_⟩
      have h2 : r.score * (1/2) ≤ 1 * (1/2) := mul_le_mul_of_nonneg_right hr.2 (by norm_num)
      show r.score * (1/2) ≤ 1
      linarith
    · exact hm x h1
  | some e =>
    intro x hx
    rcases mem_mapSet m _ x hx with h1 | h1
    · subst h1
      have he := hm e (List.mem_of_find?_eq_some hf)
      have hrs : (0 : ℚ) ≤ r.score * (3/10) := mul_nonneg hr.1 (by norm_num)
      exact ⟨le_min (by linarith) (by norm_num), min_le_right _ _⟩
    · exact hm x h1

theorem addKeywordResults_bounds (khits m : List SearchResult)
    (hm : ∀ x ∈ m, 0 ≤ x.score ∧ x.score ≤ 1)
    (hks : ∀ k ∈ khits, 0 ≤ k.score ∧ k.score ≤ 1) :
    ∀ x ∈ addKeywordResults m khits, 0 ≤ x.score ∧ x.score ≤ 1 := by
  induction khits generalizing m with
  | nil => exact hm
  | cons c cs ih =>
    rw [addKeywordResults_cons]
    exact ih (addKeywordResult m c)
      (addKeywordResult_bounds m c hm (hks c (List.mem_cons_self c cs)))
      (fun k hk => hks k (List.mem_cons_of_mem c hk))

theorem mem_insertDesc (r : SearchResult) (l : List SearchResult) (x : SearchResult)
    (hx : x ∈ insertDesc r l) : x = r ∨ x ∈ l := by
  induction l with
  | nil => exact Or.inl (by simpa [insertDesc] using hx)
  | cons y ys ih =>
    by_cases h : y.score < r.score
    · simp only [insertDesc, if_pos h, List.mem_cons] at hx
      rcases hx with hx | hx | hx
      · exact Or.inl hx
      · exact Or.inr (hx ▸ List.mem_cons_self y ys)
      · exact Or.inr (List.mem_cons_of_mem y hx)
    · simp only [insertDesc, if_neg h, List.mem_cons] at hx
      rcases hx with hx | hx
      · exact Or.inr (hx ▸ List.mem_cons_self y ys)
      · rcases ih hx with h1 | h1
        · exact Or.inl h1
        · exact Or.inr (List.mem_cons_of_mem y h1)

theorem mem_sortByScoreDesc (l : List SearchResult) (x : SearchResult)
    (hx : x ∈ sortByScoreDesc l) : x ∈ l := by
  induction l with
  | nil => simpa [sortByScoreDesc] using hx
  | cons y ys ih =>
    rcases mem_insertDesc y (sortByScoreDesc ys) x hx with h1 | h1
    · exact h1 ▸ List.mem_cons_self y ys
    · exact List.mem_cons_of_mem y (ih h1)

/-- C2 counterexample: with a single vector candidate of cosine similarity
`-1/2` (negative similarities are realizable: `cosineSimilarity [1] [-1] = -1`)
and no keyword hits, the hybrid search returns one result whose score
`-1/2 * 0.7 = -0.35` lies outside `[0,1]`. -/
theorem C2_claim_counterexample :
    (searchDocumentsRun (Except.ok ([⟨idA, idA, idA, idA, idA, -(1/2)⟩], []))
        (Except.ok []) 10).map SearchResult.score = [-(1/2) * (7/10)] ∧
    ¬ (0 ≤ (-(1/2) : ℚ) * (7/10)) := by
  constructor
  · simp [searchDocumentsRun, searchDocumentsCore, hybridMerge, addKeywordResults,
      addVectorResults, mapSet, scaleVector, sortByScoreDesc, insertDesc, List.foldl]
  · norm_num

/-- C2 amended: every score returned by `searchDocuments` lies in `[0,1]`
provided each vector candidate's similarity lies in `[0,1]` and each raw
keyword score lies in `[0,10]` (so the `/10` normalization lands in `[0,1]`);
this covers the hybrid path, the `keywordSearchOnly` fallback path (raw
scores nonnegative), and the both-fail empty result.  The counterexample
shows the hypothesis on the vector similarities is necessary. -/
theorem C2_scores_bounded_amended (vectorCandidates : List SearchResult)
    (keywordHits fallbackHits : List RawHit) (hybridFails keywordFails : Bool) (size : Nat)
    (hv : ∀ r ∈ vectorCandidates, 0 ≤ r.score ∧ r.score ≤ 1)
    (hk : ∀ h ∈ keywordHits, 0 ≤ h.rawScore ∧ h.rawScore ≤ 10)
    (hf : ∀ h ∈ fallbackHits, 0 ≤ h.rawScore) :
    ∀ r ∈ searchDocumentsRun
        (if hybridFails then Except.error () else Except.ok (vectorCandidates, keywordHits))
        (if keywordFails then Except.error () else Except.ok fallbackHits) size,
      0 ≤ r.score ∧ r.score ≤ 1 := by
  cases hybridFails with
  | true =>
    cases keywordFails with
    | true =>
      intro r hr
      simp [searchDocumentsRun, keywordSearchOnlyRun] at hr
    | false =>
      intro r hr
      have hr2 : r ∈ fallbackHits.map (fun h => (⟨h.id, h.title, h.content, h.source,
          h.technology, min (h.rawScore / 10) 1⟩ : SearchResult)) := hr
      rcases List.mem_map.mp hr2 with ⟨h, hmem, rfl⟩
      refine ⟨le_min (div_nonneg (hf h hmem) (by norm_num)) (by norm_num), ?_⟩
      exact min_le_right _ _
  | false =>
    intro r hr
    simp only [Bool.false_eq_true, not_false_iff, ite_false, searchDocumentsRun,
      searchDocumentsCore] at hr
    have h1 : r ∈ sortByScoreDesc (hybridMerge
        ((sortByScoreDesc vectorCandidates).take size)
        (keywordHits.map mkKeywordResult)) := List.take_subset _ _ hr
    have h2 := mem_sortByScoreDesc _ _ h1
    refine addKeywordResults_bounds _ _ ?_ ?_ r h2
    · intro x hx
      rcases mem_addVectorResults _ _ x hx with h3 | ⟨d, hd, rfl⟩
      · exact absurd h3 (List.not_mem_nil x)
      · have hd1 : d ∈ vectorCandidates :=
          mem_sortByScoreDesc _ _ (List.take_subset _ _ hd)
        have hd2 := hv d hd1
        refine ⟨mul_nonneg hd2.1 (by norm_num), ?_⟩
        have : d.score * (7/10) ≤ 1 * (7/10) := mul_le_mul_of_nonneg_right hd2.2 (by norm_num)
        simp only [scaleVector]
        linarith
    · intro k hkm
      rcases List.mem_map.mp hkm with ⟨h, hmem, rfl⟩
      have hh := hk h hmem
      refine ⟨div_nonneg hh.1 (by norm_num), ?_⟩
      simp only [mkKeywordResult]
      rw [div_le_one (by norm_num)]
      exact hh.2

/-- C2 witness: one vector candidate with similarity 1, one keyword hit with
raw score 10, an empty fallback hit list, and the successful hybrid path:
every hypothesis holds and the theorem bounds every returned score. -/
theorem C2_scores_bounded_amended_witness :
    ((∀ r ∈ [(⟨idA, idA, idA, idA, idA, 1⟩ : SearchResult)], 0 ≤ r.score ∧ r.score ≤ 1) ∧
      (∀ h ∈ [(⟨idA, idA, idA, idA, idA, 10⟩ : RawHit)], 0 ≤ h.rawScore ∧ h.rawScore ≤ 10) ∧
      (∀ h ∈ ([] : List RawHit), 0 ≤ h.rawScore)) ∧
    (∀ r ∈ searchDocumentsRun
        (if false then Except.error () else
          Except.ok ([(⟨idA, idA, idA, idA, idA, 1⟩ : SearchResult)],
            [(⟨idA, idA, idA, idA, idA, 10⟩ : RawHit)]))
        (if false then Except.error () else Except.ok ([] : List RawHit)) 10,
      0 ≤ r.score ∧ r.score ≤ 1) :=
  ⟨⟨by simp, by simp, by simp⟩,
    C2_scores_bounded_amended [⟨idA, idA, idA, idA, idA, 1⟩] [⟨idA, idA, idA, idA, idA, 10⟩]
      [] false false 10 (by simp) (by simp) (by simp)⟩

/- ------------------------------------------------------------------
Character-level lemmas about jtrim.
------------------------------------------------------------------ -/

theorem jtrim_length_le (s : JStr) : (jtrim s).length ≤ s.length := by
  unfold jtrim
  calc ((s.dropWhile Char.isWhitespace).reverse.dropWhile Char.isWhitespace).reverse.length
      = ((s.dropWhile Char.isWhitespace).reverse.dropWhile Char.isWhitespace).length :=
        List.length_reverse _
    _ ≤ (s.dropWhile Char.isWhitespace).reverse.length :=
        (List.dropWhile_suffix _).sublist.length_le
    _ = (s.dropWhile Char.isWhitespace).length := List.length_reverse _
    _ ≤ s.length := (List.dropWhile_suffix _).sublist.length_le

theorem nonws_mem_dropWhile (s : JStr) (c : Char) (hc : c ∈ s)
    (hw : c.isWhitespace = false) : c ∈ s.dropWhile Char.isWhitespace := by
  rw [← List.takeWhile_append_dropWhile Char.isWhitespace s] at hc
  rcases List.mem_append.mp hc with h1 | h1
  · exact absurd (List.mem_takeWhile_imp h1) (by simp [hw])
  · exact h1

theorem nonws_mem_jtrim (s : JStr) (c : Char) (hc : c ∈ s) (hw : c.isWhitespace = false) :
    c ∈ jtrim s := by
  unfold jtrim
  exact List.mem_reverse.mpr (nonws_mem_dropWhile _ c
    (List.mem_reverse.mpr (nonws_mem_dropWhile s c hc hw)) hw)

theorem jtrim_eq_nil_of_all_ws (s : JStr) (h : ∀ c ∈ s, c.isWhitespace = true) :
    jtrim s = [] := by
  have h1 : s.dropWhile Char.isWhitespace = [] := List.dropWhile_eq_nil_iff.mpr h
  unfold jtrim
  rw [h1]
  simp

theorem exists_nonws_of_jtrim_ne_nil (s : JStr) (h : jtrim s ≠ []) :
    ∃ c ∈ s, c.isWhitespace = false := by
  by_contra hc
  push_neg at hc
  refine h (jtrim_eq_nil_of_all_ws s (fun c hcs => ?_))
  cases hb : c.isWhitespace with
  | true => rfl
  | false => exact absurd hb (hc c hcs)

theorem jtrim_jtrim_ne_nil (s : JStr) (h : jtrim s ≠ []) : jtrim (jtrim s) ≠ [] := by
  obtain ⟨c, hc, hw⟩ := exists_nonws_of_jtrim_ne_nil s h
  exact List.ne_nil_of_mem (nonws_mem_jtrim _ c (nonws_mem_jtrim s c hc hw) hw)

theorem jtrim_append_ne_nil (a s b : JStr) (h : jtrim s ≠ []) : jtrim (a ++ s ++ b) ≠ [] := by
  obtain ⟨c, hc, hw⟩ := exists_nonws_of_jtrim_ne_nil s h
  exact List.ne_nil_of_mem (nonws_mem_jtrim _ c (by simp [hc]) hw)

theorem mem_paragraphsOf_trim (text p : JStr) (hp : p ∈ paragraphsOf text) :
    jtrim p ≠ [] := by
  have h2 := (List.mem_filter.mp hp).2
  intro h
  simp [h] at h2

theorem mem_sentencesOf_trim (p s : JStr) (hs : s ∈ sentencesOf p) : jtrim s ≠ [] := by
  have h2 := (List.mem_filter.mp hs).2
  intro h
  simp [h] at h2

/- ------------------------------------------------------------------
Loop invariants for chunkText.
------------------------------------------------------------------ -/

theorem sentenceLoop_invariant (maxChunkSize : Nat) : ∀ sents : List JStr,
    (∀ s ∈ sents, s.length ≤ maxChunkSize ∧ jtrim s ≠ []) →
    ∀ chunks current, (∀ c ∈ chunks, c.length ≤ maxChunkSize + 2) →
    current.length ≤ maxChunkSize + 2 → (current = [] ∨ jtrim current ≠ []) →
    (∀ c ∈ (sentenceLoop maxChunkSize sents (chunks, current)).1,
        c.length ≤ maxChunkSize + 2) ∧
    (sentenceLoop maxChunkSize sents (chunks, current)).2.length ≤ maxChunkSize + 2 ∧
    ((sentenceLoop maxChunkSize sents (chunks, current)).2 = [] ∨
      jtrim (sentenceLoop maxChunkSize sents (chunks, current)).2 ≠ []) := by
  intro sents
  induction sents with
  | nil => exact fun _ chunks current h1 h2 h3 => ⟨h1, h2, h3⟩
  | cons s rest ih =>
    intro hs chunks current h1 h2 h3
    have hsh := hs s (List.mem_cons_self s rest)
    have hst : ∀ s1 ∈ rest, s1.length ≤ maxChunkSize ∧ jtrim s1 ≠ [] :=
      fun s1 hx => hs s1 (List.mem_cons_of_mem s hx)
    have hcw : jtrim (s ++ sDotSpace.data) ≠ [] ∧ jtrim (current ++ s ++ sDotSpace.data) ≠ [] := by
      obtain ⟨c, hc, hw⟩ := exists_nonws_of_jtrim_ne_nil s hsh.2
      exact ⟨List.ne_nil_of_mem (nonws_mem_jtrim _ c (by simp [hc]) hw),
        List.ne_nil_of_mem (nonws_mem_jtrim _ c (by simp [hc]) hw)⟩
    by_cases hov : maxChunkSize < current.length + s.length
    · by_cases htr : 0 < (jtrim current).length
      · simp only [sentenceLoop, if_pos hov, if_pos htr]
        refine ih hst _ _ ?_ ?_ ?_
        · intro c hc
          rcases List.mem_append.mp hc with hx | hx
          · exact h1 c hx
          · rcases List.mem_singleton.mp hx with rfl
            exact le_trans (jtrim_length_le current) h2
        · simp only [List.nil_append, List.length_append]
          have : sDotSpace.data.length = 2 := rfl
          omega
        · exact Or.inr (by simpa using hcw.1)
      · have hce : current = [] := by
          rcases h3 with h | h
          · exact h
          · exact absurd (List.length_pos.mpr h) htr
        subst hce
        simp only [sentenceLoop, if_pos hov, if_neg htr]
        refine ih hst _ _ h1 ?_ ?_
        · simp only [List.nil_append, List.length_append]
          have : sDotSpace.data.length = 2 := rfl
          omega
        · exact Or.inr (by simpa using hcw.2)
    · simp only [sentenceLoop, if_neg hov]
      refine ih hst _ _ h1 ?_ ?_
      · simp only [List.length_append]
        have : sDotSpace.data.length = 2 := rfl
        omega
      · exact Or.inr hcw.2

theorem paragraphLoop_invariant (maxChunkSize : Nat) : ∀ paras : List JStr,
    (∀ p ∈ paras, jtrim p ≠ [] ∧ ∀ s ∈ sentencesOf p, s.length ≤ maxChunkSize) →
    ∀ chunks current, (∀ c ∈ chunks, c.length ≤ maxChunkSize + 2) →
    current.length ≤ maxChunkSize + 2 → (current = [] ∨ jtrim current ≠ []) →
    (∀ c ∈ (paragraphLoop maxChunkSize paras (chunks, current)).1,
        c.length ≤ maxChunkSize + 2) ∧
    (paragraphLoop maxChunkSize paras (chunks, current)).2.length ≤ maxChunkSize + 2 ∧
    ((paragraphLoop maxChunkSize paras (chunks, current)).2 = [] ∨
      jtrim (paragraphLoop maxChunkSize paras (chunks, current)).2 ≠ []) := by
  intro paras
  induction paras with
  | nil => exact fun _ chunks current h1 h2 h3 => ⟨h1, h2, h3⟩
  | cons p rest ih =>
    intro hp chunks current h1 h2 h3
    have hph := hp p (List.mem_cons_self p rest)
    have hpt : ∀ p1 ∈ rest, jtrim p1 ≠ [] ∧ ∀ s ∈ sentencesOf p1, s.length ≤ maxChunkSize :=
      fun p1 hx => hp p1 (List.mem_cons_of_mem p hx)
    have hflush : ∀ c ∈ chunks ++ [jtrim current], c.length ≤ maxChunkSize + 2 := by
      intro c hc
      rcases List.mem_append.mp hc with hx | hx
      · exact h1 c hx
      · rcases List.mem_singleton.mp hx with rfl
        exact le_trans (jtrim_length_le current) h2
    by_cases hov : maxChunkSize < current.length + p.length
    · by_cases hbig : maxChunkSize < p.length
      · by_cases htr : 0 < (jtrim current).length
        · simp only [paragraphLoop, if_pos hov, if_pos htr, if_pos hbig]
          have hsl := sentenceLoop_invariant maxChunkSize (sentencesOf p)
            (fun s hx => ⟨hph.2 s hx, mem_sentencesOf_trim p s hx⟩)
            (chunks ++ [jtrim current]) [] hflush (by simp) (Or.inl rfl)
          exact ih hpt _ _ hsl.1 hsl.2.1 hsl.2.2
        · have hce : current = [] := by
            rcases h3 with h | h
            · exact h
            · exact absurd (List.length_pos.mpr h) htr
          subst hce
          simp only [paragraphLoop, if_pos hov, if_neg htr, if_pos hbig]
          have hsl := sentenceLoop_invariant maxChunkSize (sentencesOf p)
            (fun s hx => ⟨hph.2 s hx, mem_sentencesOf_trim p s hx⟩)
            chunks [] h1 (by simp) (Or.inl rfl)
          exact ih hpt _ _ hsl.1 hsl.2.1 hsl.2.2
      · by_cases htr : 0 < (jtrim current).length
        · simp only [paragraphLoop, if_pos hov, if_pos htr, if_neg hbig]
          exact ih hpt _ _ hflush (by omega) (Or.inr hph.1)
        · have hce : current = [] := by
            rcases h3 with h | h
            · exact h
            · exact absurd (List.length_pos.mpr h) htr
          subst hce
          simp only [paragraphLoop, if_pos hov, if_neg htr, if_neg hbig]
          exact ih hpt _ _ h1 (by omega) (Or.inr hph.1)
    · simp only [paragraphLoop, if_neg hov]
      refine ih hpt _ _ h1 ?_ ?_
      · by_cases hcl : 0 < current.length
        · simp only [if_pos hcl, List.length_append]
          have : sNewlines.data.length = 2 := rfl
          omega
        · simp only [if_neg hcl, List.length_append, List.length_nil]
          omega
      · refine Or.inr ?_
        obtain ⟨c, hc, hw⟩ := exists_nonws_of_jtrim_ne_nil p hph.1
        exact List.ne_nil_of_mem (nonws_mem_jtrim _ c (by simp [hc]) hw)

/- ------------------------------------------------------------------
C4: chunk length bound.
------------------------------------------------------------------ -/

/-- C4 counterexample: on the eight-character input `"aaaaaaaa"` with
`maxChunkSize = 5`, `chunkText` returns the single chunk `"aaaaaaaa."` of
length 9 — the oversized sentence is kept whole and even extended by the
appended `". "`, so the chunk exceeds `maxChunkSize`. -/
theorem C4_claim_counterexample :
    chunkText sAs.data 5 = [sAsDot.data] ∧ ¬ ((sAsDot.data).length ≤ 5) := by
  decide

/-- C4 amended: a chunk can exceed `maxChunkSize` (the counterexample shows an
oversized sentence passes through whole, and the appended `". "` and `"\n\n"`
separators are not counted by the capacity checks), but whenever every
sentence of every paragraph is at most `maxChunkSize` long, every chunk
`chunkText` returns has length at most `maxChunkSize + 2`. -/
theorem C4_chunk_size_amended (text : JStr) (maxChunkSize : Nat)
    (hs : ∀ p ∈ paragraphsOf text, ∀ s ∈ sentencesOf p, s.length ≤ maxChunkSize) :
    ∀ c ∈ chunkText text maxChunkSize, c.length ≤ maxChunkSize + 2 := by
  intro c hc
  have hpl := paragraphLoop_invariant maxChunkSize (paragraphsOf text)
    (fun p hp => ⟨mem_paragraphsOf_trim text p hp, hs p hp⟩)
    [] [] (by simp) (by simp) (Or.inl rfl)
  simp only [chunkText] at hc
  split at hc
  · split at hc
    · rcases List.mem_singleton.mp hc with rfl
      exact le_trans (List.length_take_le _ _) (by omega)
    · rcases List.mem_append.mp hc with hx | hx
      · exact hpl.1 c hx
      · rcases List.mem_singleton.mp hx with rfl
        exact le_trans (jtrim_length_le _) hpl.2.1
  · split at hc
    · rcases List.mem_singleton.mp hc with rfl
      exact le_trans (List.length_take_le _ _) (by omega)
    · exact hpl.1 c hc

/-- C4 witness: the two-character input `"ab"` at `maxChunkSize = 5` satisfies
the sentence-length hypothesis, and the theorem bounds every chunk. -/
theorem C4_chunk_size_amended_witness :
    (∀ p ∈ paragraphsOf sAb.data, ∀ s ∈ sentencesOf p, s.length ≤ 5) ∧
    (∀ c ∈ chunkText sAb.data 5, c.length ≤ 5 + 2) :=
  ⟨by decide, C4_chunk_size_amended sAb.data 5 (by decide)⟩

/- ------------------------------------------------------------------
C9: chunk list is non-empty; chunks are not whitespace-only.
------------------------------------------------------------------ -/

theorem sentenceLoop_chunks_trim (maxChunkSize : Nat) : ∀ sents : List JStr,
    ∀ chunks current, (∀ c ∈ chunks, jtrim c ≠ []) →
    ∀ c ∈ (sentenceLoop maxChunkSize sents (chunks, current)).1, jtrim c ≠ [] := by
  intro sents
  induction sents with
  | nil => exact fun chunks current h1 => h1
  | cons s rest ih =>
    intro chunks current h1
    by_cases hov : maxChunkSize < current.length + s.length
    · by_cases htr : 0 < (jtrim current).length
      · simp only [sentenceLoop, if_pos hov, if_pos htr]
        refine ih _ _ ?_
        intro c hc
        rcases List.mem_append.mp hc with hx | hx
        · exact h1 c hx
        · rcases List.mem_singleton.mp hx with rfl
          exact jtrim_jtrim_ne_nil current (List.length_pos.mp htr)
      · simp only [sentenceLoop, if_pos hov, if_neg htr]
        exact ih _ _ h1
    · simp only [sentenceLoop, if_neg hov]
      exact ih _ _ h1

theorem paragraphLoop_chunks_trim (maxChunkSize : Nat) : ∀ paras : List JStr,
    ∀ chunks current, (∀ c ∈ chunks, jtrim c ≠ []) →
    ∀ c ∈ (paragraphLoop maxChunkSize paras (chunks, current)).1, jtrim c ≠ [] := by
  intro paras
  induction paras with
  | nil => exact fun chunks current h1 => h1
  | cons p rest ih =>
    intro chunks current h1
    have hflush : jtrim current ≠ [] → ∀ c ∈ chunks ++ [jtrim current], jtrim c ≠ [] := by
      intro htr0 c hc
      rcases List.mem_append.mp hc with hx | hx
      · exact h1 c hx
      · rcases List.mem_singleton.mp hx with rfl
        exact jtrim_jtrim_ne_nil current htr0
    by_cases hov : maxChunkSize < current.length + p.length
    · by_cases hbig : maxChunkSize < p.length
      · by_cases htr : 0 < (jtrim current).length
        · simp only [paragraphLoop, if_pos hov, if_pos htr, if_pos hbig]
          exact ih _ _ (sentenceLoop_chunks_trim maxChunkSize (sentencesOf p) _ []
            (hflush (List.length_pos.mp htr)))
        · simp only [paragraphLoop, if_pos hov, if_neg htr, if_pos hbig]
          exact ih _ _ (sentenceLoop_chunks_trim maxChunkSize (sentencesOf p) _ current h1)
      · by_cases htr : 0 < (jtrim current).length
        · simp only [paragraphLoop, if_pos hov, if_pos htr, if_neg hbig]
          exact ih _ _ (hflush (List.length_pos.mp htr))
        · simp only [paragraphLoop, if_pos hov, if_neg htr, if_neg hbig]
          exact ih _ _ h1
    · simp only [paragraphLoop, if_neg hov]
      exact ih _ _ h1

/-- C9 counterexample: the three-space input is a non-empty text, yet
`chunkText` (at the default `maxChunkSize = 1000`) returns the single
fallback chunk `"   "`, which is whitespace-only. -/
theorem C9_claim_counterexample :
    chunkText sWS.data 1000 = [sWS.data] ∧ sWS.data ≠ [] ∧ jtrim sWS.data = [] := by
  decide

/-- C9 amended: `chunkText` always returns a non-empty list (the fallback
pushes `text.substring(0, maxChunkSize)` when the loop produced nothing), and
no returned chunk is empty or whitespace-only provided the first
`maxChunkSize` characters of the input contain a non-whitespace character —
the counterexample shows whitespace-only non-empty input defeats the
unconditional form through the untrimmed fallback chunk. -/
theorem C9_nonempty_chunks_amended (text : JStr) (maxChunkSize : Nat) :
    chunkText text maxChunkSize ≠ [] ∧
    (jtrim (text.take maxChunkSize) ≠ [] →
      ∀ c ∈ chunkText text maxChunkSize, jtrim c ≠ []) := by
  constructor
  · simp only [chunkText]
    split
    · split
      · simp
      · simp
    · split
      · simp
      · intro h
        rename_i hne
        exact hne h
  · intro htk c hc
    have hpl := paragraphLoop_chunks_trim maxChunkSize (paragraphsOf text) [] []
      (by simp)
    simp only [chunkText] at hc
    split at hc
    · split at hc
      · rcases List.mem_singleton.mp hc with rfl
        exact htk
      · rcases List.mem_append.mp hc with hx | hx
        · exact hpl c hx
        · rcases List.mem_singleton.mp hx with rfl
          rename_i htr _
          exact jtrim_jtrim_ne_nil _ (List.length_pos.mp htr)
    · split at hc
      · rcases List.mem_singleton.mp hc with rfl
        exact htk
      · exact hpl c hc

/-- C9 witness: for the input `"ab"` the truncated prefix is not whitespace,
and the theorem yields a non-empty chunk list with no whitespace-only chunk. -/
theorem C9_nonempty_chunks_amended_witness :
    jtrim (sAb.data.take 5) ≠ [] ∧
    (chunkText sAb.data 5 ≠ [] ∧ ∀ c ∈ chunkText sAb.data 5, jtrim c ≠ []) :=
  ⟨by decide, ⟨(C9_nonempty_chunks_amended sAb.data 5).1,
    (C9_nonempty_chunks_amended sAb.data 5).2 (by decide)⟩⟩
